import Mathlib

/-!
Verification of the `hash_perf` micro-benchmark harness
(`src/trunk/perf/hash_perf.cpp`) via a shallow embedding.

The harness draws unsigned 64-bit keys from a key generator, times a loop
of table operations, samples process memory, and divides elapsed time by
the operation count.  Machine integers are modelled as `Nat` reduced
modulo `2 ^ 64` where the C++ arithmetic wraps; wall-clock durations are
modelled as a rational parameter; each measurement function is embedded as
a pure function that also records a trace of the externally visible events
(timer marks, table operations, the memory sample) in the order the C++
statements execute them.
-/

set_option maxRecDepth 100000

namespace HashPerf

/-- Modulus of `uint64_t` / 64-bit `size_t` arithmetic. -/
abbrev M : Nat := 2 ^ 64

/-! ## Key generators (hash_perf.cpp lines 48-84)

A key generator is embedded as a state type `σ` together with a step
function `next : σ → Nat × σ` returning the drawn key and the new state,
mirroring the virtual nullary `operator()` of `key_generator`. -/

/-- `sequential_key_generator(uint64_t seed)` stores `_counter = seed`
(the argument is a `uint64_t`, so the stored value is the seed mod 2^64). -/
def sequential_key_generator.init (seed : Nat) : Nat := seed % M

/-- `operator()` of `sequential_key_generator`: `return _counter++;` —
returns the current counter, then increments it with `uint64_t` wrap. -/
def sequential_key_generator.next (c : Nat) : Nat × Nat := (c, (c + 1) % M)

/-- The `n`-th key drawn from a generator started in state `s` (0-indexed). -/
def genNth {σ : Type} (next : σ → Nat × σ) : σ → Nat → Nat
  | s, 0 => (next s).1
  | s, n + 1 => genNth next (next s).2 n

/-- The `n`-th value emitted by a sequential generator seeded with `seed`. -/
def seqNth (seed n : Nat) : Nat :=
  genNth sequential_key_generator.next (sequential_key_generator.init seed) n

theorem seqNth_mod (s n : Nat) : genNth sequential_key_generator.next (s % M) n = (s + n) % M := by
  induction n generalizing s with
  | zero => simp [genNth, sequential_key_generator.next]
  | succ n ih =>
    have h1 : (s % M + 1) % M = (s + 1) % M := Nat.mod_add_mod s M 1
    calc genNth sequential_key_generator.next (s % M) (n + 1)
        = genNth sequential_key_generator.next ((s % M + 1) % M) n := rfl
      _ = genNth sequential_key_generator.next ((s + 1) % M) n := by rw [h1]
      _ = (s + 1 + n) % M := ih (s + 1)
      _ = (s + (n + 1)) % M := by ring_nf

/-- **C10**: the sequential generator is total and its counter arithmetic is
modulo `2 ^ 64`: for every seed `s` and every `n`, the `n`-th generated
value equals `(s + n) % 2 ^ 64`, wrapping silently on unsigned overflow. -/
theorem seq_generator_wraps_mod_two_pow_64 (s n : Nat) : seqNth s n = (s + n) % M := by
  unfold seqNth sequential_key_generator.init
  exact seqNth_mod s n

/-- **C3, counterexample**: at the concrete valid seed `2 ^ 64 - 1` and
`n = 1` the generated value is `0`, not `seed + n = 2 ^ 64`: the claim
"the n-th value equals seed + n for every seed and n" fails on the code. -/
theorem seq_generator_nth_ne_seed_add_n : seqNth (2 ^ 64 - 1) 1 ≠ 2 ^ 64 - 1 + 1 := by
  decide

/-- **C3 (amended)**: the `n`-th value generated by a sequential generator
seeded with `s` equals `s + n` whenever `s + n` does not overflow
`uint64_t` (`s + n < 2 ^ 64`); the stream is a pure function of the seed,
so two generators constructed with the same seed produce identical
streams. -/
theorem seq_generator_nth_eq_seed_add_n (s n : Nat) (h : s + n < 2 ^ 64) :
    seqNth s n = s + n := by
  unfold seqNth sequential_key_generator.init
  rw [seqNth_mod]
  exact Nat.mod_eq_of_lt h

/-- Witness for the amended C3 at seed 5, n 7. -/
theorem seq_generator_nth_eq_seed_add_n_witness : seqNth 5 7 = 5 + 7 :=
  seq_generator_nth_eq_seed_add_n 5 7 (by decide)

/-! ## Random key generator (hash_perf.cpp lines 54-71)

The constructor (line 63) computes `_seed = time(NULL) ^ seed` —
unconditionally, for every caller-supplied seed — then runs
`RAND_NR_INIT(_u, _v, _w, _seed)`.  Construction time is modelled as an
explicit parameter `t`. -/

/-- State of the three-word RNG: the `_u, _v, _w` members. -/
structure RngState where
  u : Nat
  v : Nat
  w : Nat
deriving DecidableEq

/-- Modelled from the spec: `RAND_NR_NEXT` from `ulib/rand_tpl.h` is not
under `src/`; the spec describes it as "a seeded high-quality generator
(three 64-bit state words updated by a fixed nonlinear recurrence)" and
the source comment points to the Numerical Recipes RNG, whose `int64`
step over the words `u, v, w` is embedded here with wrap-around modulo
`2 ^ 64`. -/
def RAND_NR_NEXT (s : RngState) : Nat × RngState :=
  let u := (s.u * 2862933555777941757 + 7046029254386353087) % M
  let v1 := s.v ^^^ (s.v >>> 17)
  let v2 := v1 ^^^ ((v1 <<< 31) % M)
  let v := v2 ^^^ (v2 >>> 8)
  let w := (4294957665 * (s.w % 2 ^ 32) + (s.w >>> 32)) % M
  let x1 := u ^^^ ((u <<< 21) % M)
  let x2 := x1 ^^^ (x1 >>> 35)
  let x := x2 ^^^ ((x2 <<< 4) % M)
  (((x + v) % M) ^^^ w, ⟨u, v, w⟩)

/-- Modelled from the spec: `RAND_NR_INIT` from `ulib/rand_tpl.h` is not
under `src/`; following the Numerical Recipes seeding referenced by the
source comment, the effective seed `j` is mixed into the first word and
the recurrence is stepped once after initialising each word. -/
def RAND_NR_INIT (j : Nat) : RngState :=
  let v0 : Nat := 4101842887655102017
  let s1 := (RAND_NR_NEXT ⟨(j % M) ^^^ v0, v0, 1⟩).2
  let s2 := (RAND_NR_NEXT ⟨s1.u, s1.u, s1.w⟩).2
  let s3 := (RAND_NR_NEXT ⟨s2.u, s2.v, s2.v⟩).2
  s3

/-- Constructor of `random_key_generator` (line 61-65): the stored seed is
`time(NULL) ^ seed` — the current time `t` is XORed in for every
caller-supplied seed, zero or not — and the RNG words are initialised
from that effective seed. -/
def random_key_generator.init (t seed : Nat) : RngState :=
  RAND_NR_INIT ((t % M) ^^^ (seed % M))

/-- The `n`-th value emitted by a random generator constructed at time `t`
with caller-supplied seed `seed`. -/
def randNth (t seed n : Nat) : Nat :=
  genNth RAND_NR_NEXT (random_key_generator.init t seed) n

/-- **C1, counterexample**: two random generators constructed with the same
explicit nonzero seed `1` at different construction times (`0` and `1`)
already differ at the first output: the constructor XORs the current time
into the seed for every caller-supplied seed, not only for seed zero, so
an explicit nonzero seed does not make runs reproducible. -/
theorem random_generator_nonzero_seed_not_reproducible :
    randNth 0 1 0 ≠ randNth 1 1 0 := by
  decide

/-- **C1 (amended)**: the current time is XORed into the caller-supplied
seed unconditionally, so the output stream is a function of
`time XOR seed` alone: two random generators whose construction time and
seed XOR to the same effective seed — in particular two generators with
the same seed constructed at the same time — produce bit-identical
streams of arbitrary length. -/
theorem random_generator_stream_determined_by_time_xor_seed
    (t s t' s' : Nat) (h : (t % M) ^^^ (s % M) = (t' % M) ^^^ (s' % M)) (n : Nat) :
    randNth t s n = randNth t' s' n := by
  unfold randNth random_key_generator.init
  rw [h]

/-- Witness for the amended C1: times 5 and 3 with seeds 3 and 5 have the
same effective seed `5 XOR 3 = 6`, and the first outputs agree. -/
theorem random_generator_stream_determined_witness : randNth 5 3 0 = randNth 3 5 0 :=
  random_generator_stream_determined_by_time_xor_seed 5 3 3 5 (by decide) 0

/-! ## Table under test

The harness treats each table as a black box with exactly two operations:
`map[key] = 0` (upsert-by-key) and `map.find(key)` (lookup, result
discarded).  The table is modelled as an association list of key/value
pairs in insertion order. -/

/-- Modelled from the spec: the hash tables under test are external
collaborators; `TableUnderTest` is "an opaque associative container ...
exposing exactly two operations: upsert-by-key (create-or-overwrite) and
lookup-by-key (returns found/not-found)". -/
abbrev Table : Type := List (Nat × Nat)

/-- `map[k] = v`: overwrite the value if the key is present, append the
pair otherwise. -/
def Table.upsert (t : Table) (k v : Nat) : Table :=
  if t.any (fun p => p.1 == k) then
    t.map (fun p => if p.1 == k then (k, v) else p)
  else
    t ++ [(k, v)]

/-- `map.find(k)`: whether the key is present. -/
def Table.found (t : Table) (k : Nat) : Bool :=
  t.any (fun p => p.1 == k)

/-! ## The measurement functions (hash_perf.cpp lines 97-132)

Each measurement is a pure function of the capacity/loop counts and the
generator state.  Besides the final table, the drawn keys and the new
generator state, it records the trace of externally visible events in the
order the C++ statements execute them, and exposes the denominator of the
final division `elapsed / count * 1000000000`. -/

/-- An externally visible event of a measurement call. -/
inductive Event where
  | timerStart : Event
  | upsertOp : Nat → Event
  | findOp : Nat → Event
  | memSample : Event
  | timerStop : Event
deriving DecidableEq, BEq

/-- Draw `n` keys from a generator, returning them in order together with
the final generator state. -/
def drawKeys {σ : Type} (next : σ → Nat × σ) : Nat → σ → List Nat × σ
  | 0, s => ([], s)
  | n + 1, s =>
    let d := next s
    let r := drawKeys next n d.2
    (d.1 :: r.1, r.2)

/-- Result of one `measure_insert_time` call. -/
structure InsertRun (σ : Type) where
  table : Table
  keys : List Nat
  denom : Nat
  gen : σ
  trace : List Event

/-- `measure_insert_time<T>(capacity, kg, mem)` (lines 118-132): construct
a fresh table, start the timer, upsert `capacity` generated keys with
value 0, assign `*mem = current_mem_usage()`, then return
`timer_stop(&timer) / capacity * 1000000000` — the `timer_stop` call sits
inside the `return` statement and therefore executes after the memory
sample.  The division denominator is `capacity`. -/
def measure_insert_time {σ : Type} (next : σ → Nat × σ) (capacity : Nat) (g : σ) :
    InsertRun σ :=
  let d := drawKeys next capacity g
  { table := d.1.foldl (fun t k => Table.upsert t k 0) []
    keys := d.1
    denom := capacity
    gen := d.2
    trace := Event.timerStart :: d.1.map Event.upsertOp ++ [Event.memSample, Event.timerStop] }

/-- Result of one `measure_find_time` call. -/
structure FindRun (σ : Type) where
  table : Table
  popKeys : List Nat
  lookupKeys : List Nat
  lookupResults : List Bool
  denom : Nat
  gen : σ
  trace : List Event

/-- `measure_find_time<T>(capacity, loop, kg, mem)` (lines 97-115):
construct a fresh table, populate it with `capacity` generated keys
(untimed), start the timer, look up `loop` further keys drawn from the
same generator, assign `*mem = current_mem_usage()`, then return
`timer_stop(&timer) / loop * 1000000000` — again the memory sample
executes before `timer_stop`.  The division denominator is `loop`. -/
def measure_find_time {σ : Type} (next : σ → Nat × σ) (capacity loop : Nat) (g : σ) :
    FindRun σ :=
  let p := drawKeys next capacity g
  let tbl := p.1.foldl (fun t k => Table.upsert t k 0) []
  let q := drawKeys next loop p.2
  { table := tbl
    popKeys := p.1
    lookupKeys := q.1
    lookupResults := q.1.map (Table.found tbl)
    denom := loop
    gen := q.2
    trace := p.1.map Event.upsertOp ++
      Event.timerStart :: q.1.map Event.findOp ++ [Event.memSample, Event.timerStop] }

/-- The reported latency: `elapsed / count * 1000000000`, with the elapsed
wall-clock seconds as a rational parameter. -/
def latency (elapsed : ℚ) (denom : Nat) : ℚ := elapsed / denom * 1000000000

/-- Whether an event is an upsert of some key. -/
def Event.isUpsert : Event → Bool
  | Event.upsertOp _ => true
  | _ => false

theorem drawKeys_length {σ : Type} (next : σ → Nat × σ) (n : Nat) (s : σ) :
    (drawKeys next n s).1.length = n := by
  induction n generalizing s with
  | zero => rfl
  | succ n ih => simp [drawKeys, ih]

theorem drawKeys_snd {σ : Type} (next : σ → Nat × σ) (n : Nat) (s : σ) :
    (drawKeys next n s).2 = (fun x => (next x).2)^[n] s := by
  induction n generalizing s with
  | zero => rfl
  | succ n ih => simp [drawKeys, ih, Function.iterate_succ_apply]

theorem mem_upsert {p : Nat × Nat} {t : Table} {k v : Nat}
    (h : p ∈ Table.upsert t k v) : p ∈ t ∨ p.1 = k := by
  unfold Table.upsert at h
  by_cases hc : t.any (fun q => q.1 == k)
  · rw [if_pos hc] at h
    obtain ⟨q, hq, hpq⟩ := List.mem_map.mp h
    by_cases hk : q.1 = k
    · right
      simp [hk] at hpq
      simp [← hpq]
    · left
      simp [hk] at hpq
      rwa [← hpq]
  · rw [if_neg hc] at h
    rcases List.mem_append.mp h with h1 | h2
    · exact Or.inl h1
    · right
      simp at h2
      simp [h2]

theorem mem_foldl_upsert {p : Nat × Nat} (ks : List Nat) (t : Table)
    (h : p ∈ ks.foldl (fun a k => Table.upsert a k 0) t) : p ∈ t ∨ p.1 ∈ ks := by
  induction ks generalizing t with
  | nil => exact Or.inl h
  | cons k ks ih =>
    rcases ih (Table.upsert t k 0) h with h1 | h2
    · rcases mem_upsert h1 with h3 | h4
      · exact Or.inl h3
      · exact Or.inr (by simp [h4])
    · exact Or.inr (List.mem_cons_of_mem k h2)

/-- **C5**: for every capacity `C ≥ 1` and every key generator,
`measure_insert_time` performs exactly `C` upsert operations on a table
that starts empty (every table entry's key was drawn in this call),
advances the generator exactly `C` times, and the reported latency
`elapsed / C * 10^9` is non-negative for any non-negative elapsed time. -/
theorem measure_insert_time_performs_C_upserts {σ : Type} (next : σ → Nat × σ)
    (C : Nat) (g : σ) (elapsed : ℚ) (hC : 1 ≤ C) (he : 0 ≤ elapsed) :
    ((measure_insert_time next C g).trace.countP Event.isUpsert) = C ∧
      (measure_insert_time next C g).keys.length = C ∧
      (measure_insert_time next C g).gen = (fun x => (next x).2)^[C] g ∧
      (∀ p ∈ (measure_insert_time next C g).table,
        p.1 ∈ (measure_insert_time next C g).keys) ∧
      0 ≤ latency elapsed (measure_insert_time next C g).denom := by
  refine ⟨?_, ?_, ?_, ?_, ?_⟩
  · simp [measure_insert_time, List.countP_cons, List.countP_append, List.countP_map,
      Function.comp_def, Event.isUpsert, List.countP_eq_length_filter, List.filter_map,
      drawKeys_length]
  · exact drawKeys_length next C g
  · exact drawKeys_snd next C g
  · intro p hp
    rcases mem_foldl_upsert _ [] hp with h1 | h2
    · exact absurd h1 (List.not_mem_nil p)
    · exact h2
  · have hd : (0 : ℚ) ≤ ((measure_insert_time next C g).denom : ℚ) := by positivity
    unfold latency
    positivity

/-- Witness for C5 with the sequential generator, capacity 3, elapsed 1. -/
theorem measure_insert_time_performs_C_upserts_witness :
    ((measure_insert_time sequential_key_generator.next 3
        (sequential_key_generator.init 0)).trace.countP Event.isUpsert) = 3 ∧
      (measure_insert_time sequential_key_generator.next 3
        (sequential_key_generator.init 0)).keys.length = 3 ∧
      (measure_insert_time sequential_key_generator.next 3
          (sequential_key_generator.init 0)).gen =
        (fun x => (sequential_key_generator.next x).2)^[3]
          (sequential_key_generator.init 0) ∧
      (∀ p ∈ (measure_insert_time sequential_key_generator.next 3
          (sequential_key_generator.init 0)).table,
        p.1 ∈ (measure_insert_time sequential_key_generator.next 3
          (sequential_key_generator.init 0)).keys) ∧
      0 ≤ latency 1 (measure_insert_time sequential_key_generator.next 3
        (sequential_key_generator.init 0)).denom :=
  measure_insert_time_performs_C_upserts sequential_key_generator.next 3
    (sequential_key_generator.init 0) 1 (by decide) (by norm_num)

/-- **C2** (exhibit of the failing input): at `capacity = 0` the code
performs zero upsert operations, still enters the timed region
(`timer_start` executes), and the final division's denominator is the
capacity, i.e. zero — there is no `InvalidConfiguration` check anywhere
in the function. -/
theorem measure_insert_time_capacity_zero_divides_by_zero :
    (measure_insert_time sequential_key_generator.next 0
        (sequential_key_generator.init 0)).keys = [] ∧
      (measure_insert_time sequential_key_generator.next 0
          (sequential_key_generator.init 0)).trace =
        [Event.timerStart, Event.memSample, Event.timerStop] ∧
      (measure_insert_time sequential_key_generator.next 0
        (sequential_key_generator.init 0)).denom = 0 := by
  exact ⟨rfl, rfl, rfl⟩

/-- **C6**: `measure_find_time` with `capacity = 0` and `loop = L ≥ 1`
performs all `L` lookups against an empty table — every lookup is a miss —
and raises nothing: the division denominator in find mode is `loop`,
which is nonzero here, so `capacity = 0` is not an invalid configuration
for the find measurement. -/
theorem measure_find_time_capacity_zero_all_misses {σ : Type} (next : σ → Nat × σ)
    (L : Nat) (g : σ) (hL : 1 ≤ L) :
    (measure_find_time next 0 L g).popKeys = [] ∧
      (measure_find_time next 0 L g).table = [] ∧
      (measure_find_time next 0 L g).lookupResults = List.replicate L false ∧
      (measure_find_time next 0 L g).denom = L ∧
      (measure_find_time next 0 L g).denom ≠ 0 := by
  refine ⟨rfl, rfl, ?_, rfl, by show L ≠ 0; omega⟩
  show ((drawKeys next L g).1.map (Table.found [])) = List.replicate L false
  have h1 : Table.found [] = fun _ => false := rfl
  rw [h1, List.map_const', drawKeys_length]

/-- Witness for C6 with the sequential generator and `L = 1`. -/
theorem measure_find_time_capacity_zero_all_misses_witness :
    (measure_find_time sequential_key_generator.next 0 1
        (sequential_key_generator.init 0)).popKeys = [] ∧
      (measure_find_time sequential_key_generator.next 0 1
        (sequential_key_generator.init 0)).table = [] ∧
      (measure_find_time sequential_key_generator.next 0 1
        (sequential_key_generator.init 0)).lookupResults = List.replicate 1 false ∧
      (measure_find_time sequential_key_generator.next 0 1
        (sequential_key_generator.init 0)).denom = 1 ∧
      (measure_find_time sequential_key_generator.next 0 1
        (sequential_key_generator.init 0)).denom ≠ 0 :=
  measure_find_time_capacity_zero_all_misses sequential_key_generator.next 1
    (sequential_key_generator.init 0) (by decide)

theorem seqAdvance (c s : Nat) :
    (fun x => (sequential_key_generator.next x).2)^[c] (s % M) = (s + c) % M := by
  induction c generalizing s with
  | zero => simp
  | succ c ih =>
    rw [Function.iterate_succ_apply]
    show (fun x => (sequential_key_generator.next x).2)^[c] ((s % M + 1) % M) = _
    rw [Nat.mod_add_mod s M 1, ih (s + 1)]
    ring_nf

theorem drawKeys_seq_fst (n s : Nat) :
    (drawKeys sequential_key_generator.next n (s % M)).1 =
      (List.range n).map (fun i => (s + i) % M) := by
  induction n generalizing s with
  | zero => simp [drawKeys]
  | succ n ih =>
    show (s % M) :: (drawKeys sequential_key_generator.next n ((s % M + 1) % M)).1 = _
    rw [Nat.mod_add_mod s M 1, ih (s + 1), List.range_succ_eq_map, List.map_cons,
      List.map_map]
    refine congrArg₂ _ (by simp) (List.map_congr_left ?_)
    intro i _
    simp [Function.comp]
    ring_nf

theorem upsert_fresh (t : Table) (k v : Nat) (h : k ∉ t.map Prod.fst) :
    Table.upsert t k v = t ++ [(k, v)] := by
  have hc : t.any (fun p => p.1 == k) = false := by
    simp only [List.any_eq_false, beq_iff_eq]
    intro p hp hpk
    exact h (List.mem_map.mpr ⟨p, hp, hpk⟩)
  unfold Table.upsert
  rw [hc]
  simp

theorem foldl_upsert_fresh (ks : List Nat) (t : Table)
    (h : ∀ k ∈ ks, k ∉ t.map Prod.fst) (hnd : ks.Nodup) :
    (ks.foldl (fun a k => Table.upsert a k 0) t).map Prod.fst = t.map Prod.fst ++ ks := by
  induction ks generalizing t with
  | nil => simp
  | cons k ks ih =>
    have hk : k ∉ t.map Prod.fst := h k (List.mem_cons_self k ks)
    have step : Table.upsert t k 0 = t ++ [(k, 0)] := upsert_fresh t k 0 hk
    show ((ks.foldl (fun a k => Table.upsert a k 0) (Table.upsert t k 0)).map Prod.fst) = _
    rw [step, ih (t ++ [(k, 0)]) ?_ (List.Nodup.of_cons hnd)]
    · simp
    · intro k' hk'
      simp only [List.map_append, List.mem_append, List.map_cons, List.map_nil,
        List.mem_singleton, not_or]
      refine ⟨h k' (List.mem_cons_of_mem k hk'), ?_⟩
      have := (List.nodup_cons.mp hnd).1
      intro hkk
      exact this (hkk ▸ hk')

theorem found_eq_false (t : Table) (k : Nat) (h : k ∉ t.map Prod.fst) :
    Table.found t k = false := by
  unfold Table.found
  simp only [List.any_eq_false, beq_iff_eq]
  intro p hp hpk
  exact h (List.mem_map.mpr ⟨p, hp, hpk⟩)

/-- **C4**: with `capacity = 100`, `loop = 1000` and a sequential generator
seeded at 0, `measure_find_time` populates a fresh table with exactly the
keys `0..99` (in insertion order), then looks up the keys `100..1099` —
the continuation of the same stream, not a replay — all of which are
misses, and the reported latency divides elapsed time by 1000 and is
non-negative for any non-negative elapsed time. -/
theorem measure_find_time_end_to_end :
    ((measure_find_time sequential_key_generator.next 100 1000
        (sequential_key_generator.init 0)).table.map Prod.fst = List.range 100) ∧
      (measure_find_time sequential_key_generator.next 100 1000
        (sequential_key_generator.init 0)).popKeys = List.range 100 ∧
      (measure_find_time sequential_key_generator.next 100 1000
          (sequential_key_generator.init 0)).lookupKeys =
        (List.range 1000).map (fun i => i + 100) ∧
      (measure_find_time sequential_key_generator.next 100 1000
        (sequential_key_generator.init 0)).lookupResults = List.replicate 1000 false ∧
      (measure_find_time sequential_key_generator.next 100 1000
        (sequential_key_generator.init 0)).denom = 1000 ∧
      ∀ e : ℚ, 0 ≤ e →
        0 ≤ latency e (measure_find_time sequential_key_generator.next 100 1000
          (sequential_key_generator.init 0)).denom := by
  have e0 : sequential_key_generator.init 0 = 0 % M := rfl
  have hMbig : (1100 : Nat) < M := by norm_num
  have hp : (drawKeys sequential_key_generator.next 100 (sequential_key_generator.init 0)).1 =
      List.range 100 := by
    rw [e0, drawKeys_seq_fst 100 0]
    calc (List.range 100).map (fun i => (0 + i) % M)
        = (List.range 100).map id := List.map_congr_left (fun i hi => by
          simp only [List.mem_range] at hi
          simp only [Nat.zero_add, id]
          exact Nat.mod_eq_of_lt (by omega))
      _ = List.range 100 := List.map_id _
  have hg : (drawKeys sequential_key_generator.next 100 (sequential_key_generator.init 0)).2 =
      100 % M := by
    rw [e0, drawKeys_snd, seqAdvance]
  have hq : (drawKeys sequential_key_generator.next 1000
      ((drawKeys sequential_key_generator.next 100 (sequential_key_generator.init 0)).2)).1 =
      (List.range 1000).map (fun i => i + 100) := by
    rw [hg, drawKeys_seq_fst 1000 100]
    exact List.map_congr_left (fun i hi => by
      simp only [List.mem_range] at hi
      rw [Nat.mod_eq_of_lt (by omega)]
      omega)
  have ht : ((drawKeys sequential_key_generator.next 100
      (sequential_key_generator.init 0)).1.foldl
        (fun a k => Table.upsert a k 0) []).map Prod.fst = List.range 100 := by
    rw [hp, foldl_upsert_fresh (List.range 100) [] (by simp) (List.nodup_range 100)]
    simp
  refine ⟨?_, ?_, ?_, ?_, rfl, ?_⟩
  · exact ht
  · exact hp
  · exact hq
  · show ((drawKeys sequential_key_generator.next 1000
        ((drawKeys sequential_key_generator.next 100
          (sequential_key_generator.init 0)).2)).1.map
        (Table.found ((drawKeys sequential_key_generator.next 100
          (sequential_key_generator.init 0)).1.foldl
            (fun a k => Table.upsert a k 0) []))) = List.replicate 1000 false
    rw [hq, List.map_map]
    have hall : ∀ i ∈ List.range 1000,
        (Table.found ((drawKeys sequential_key_generator.next 100
          (sequential_key_generator.init 0)).1.foldl
            (fun a k => Table.upsert a k 0) []) ∘ fun i => i + 100) i = false := by
      intro i hi
      refine found_eq_false _ (i + 100) ?_
      rw [ht]
      simp only [List.mem_range]
      omega
    rw [List.map_congr_left hall, List.map_const', List.length_range]
  · intro e he
    unfold latency
    positivity

/-- Witness for C4 at elapsed time 0. -/
theorem measure_find_time_end_to_end_witness :
    0 ≤ latency 0 (measure_find_time sequential_key_generator.next 100 1000
      (sequential_key_generator.init 0)).denom :=
  measure_find_time_end_to_end.2.2.2.2.2 0 le_rfl

/-! ## Ordering of the memory sample relative to the timer (C7) -/

/-- `a` occurs at a strictly earlier position than `b` in the trace `l`. -/
def eventBefore (a b : Event) (l : List Event) : Prop :=
  ∃ i j : Nat, i < j ∧ l.get? i = some a ∧ l.get? j = some b

theorem get_after_prefix (pre : List Event) (a b : Event) :
    (pre ++ [a, b]).get? pre.length = some a ∧
      (pre ++ [a, b]).get? (pre.length + 1) = some b := by
  constructor
  · rw [List.get?_append_right (Nat.le_refl _)]
    simp
  · rw [List.get?_append_right (by omega)]
    have h1 : pre.length + 1 - pre.length = 1 := by omega
    rw [h1]
    rfl

/-- **C7, counterexample**: in both measurement functions the memory sample
executes before `timer_stop`, not after it: at capacity 1 (and loop 1)
the concrete traces end `..., memSample, timerStop`, so the first
position of `timerStop` is not before the first position of
`memSample`. -/
theorem memory_sample_precedes_timer_stop :
    (measure_insert_time sequential_key_generator.next 1
        (sequential_key_generator.init 0)).trace =
      [Event.timerStart, Event.upsertOp 0, Event.memSample, Event.timerStop] ∧
      (measure_find_time sequential_key_generator.next 1 1
          (sequential_key_generator.init 0)).trace =
        [Event.upsertOp 0, Event.timerStart, Event.findOp 1,
          Event.memSample, Event.timerStop] ∧
      ¬ ((measure_insert_time sequential_key_generator.next 1
            (sequential_key_generator.init 0)).trace.indexOf Event.timerStop <
          (measure_insert_time sequential_key_generator.next 1
            (sequential_key_generator.init 0)).trace.indexOf Event.memSample) ∧
      ¬ ((measure_find_time sequential_key_generator.next 1 1
            (sequential_key_generator.init 0)).trace.indexOf Event.timerStop <
          (measure_find_time sequential_key_generator.next 1 1
            (sequential_key_generator.init 0)).trace.indexOf Event.memSample) := by
  refine ⟨rfl, rfl, ?_, ?_⟩ <;> decide

/-- **C7 (amended)**: in both `measure_insert_time` and `measure_find_time`
the steps after the timed loop occur in the order: sample memory, then
stop the timer — the memory-sampling call sits between `timer_start` and
`timer_stop`, inside the timed region, so its cost is part of the
reported elapsed time. -/
theorem memory_sample_inside_timed_region {σ : Type} (next : σ → Nat × σ)
    (c l : Nat) (g : σ) :
    (eventBefore Event.timerStart Event.memSample
        (measure_insert_time next c g).trace ∧
      eventBefore Event.memSample Event.timerStop
        (measure_insert_time next c g).trace) ∧
      (eventBefore Event.timerStart Event.memSample
          (measure_find_time next c l g).trace ∧
        eventBefore Event.memSample Event.timerStop
          (measure_find_time next c l g).trace) := by
  constructor
  · have base := get_after_prefix ((drawKeys next c g).1.map Event.upsertOp)
      Event.memSample Event.timerStop
    constructor
    · exact ⟨0, ((drawKeys next c g).1.map Event.upsertOp).length + 1,
        by omega, rfl, base.1⟩
    · exact ⟨((drawKeys next c g).1.map Event.upsertOp).length + 1,
        ((drawKeys next c g).1.map Event.upsertOp).length + 1 + 1,
        by omega, base.1, base.2⟩
  · have base := get_after_prefix
      ((drawKeys next l (drawKeys next c g).2).1.map Event.findOp)
      Event.memSample Event.timerStop
    have htr : (measure_find_time next c l g).trace =
        (drawKeys next c g).1.map Event.upsertOp ++
          Event.timerStart ::
            ((drawKeys next l (drawKeys next c g).2).1.map Event.findOp ++
              [Event.memSample, Event.timerStop]) := by
      simp only [measure_find_time]
      simp [List.append_assoc, List.cons_append]
    have hstart : (measure_find_time next c l g).trace.get?
        ((drawKeys next c g).1.map Event.upsertOp).length = some Event.timerStart := by
      rw [htr, List.get?_append_right (Nat.le_refl _)]
      simp
    have hmem : (measure_find_time next c l g).trace.get?
        (((drawKeys next c g).1.map Event.upsertOp).length + 1 +
          ((drawKeys next l (drawKeys next c g).2).1.map Event.findOp).length) =
        some Event.memSample := by
      rw [htr, List.get?_append_right (by omega)]
      have h2 : ((drawKeys next c g).1.map Event.upsertOp).length + 1 +
          ((drawKeys next l (drawKeys next c g).2).1.map Event.findOp).length -
          ((drawKeys next c g).1.map Event.upsertOp).length =
          ((drawKeys next l (drawKeys next c g).2).1.map Event.findOp).length + 1 := by
        omega
      rw [h2]
      exact base.1
    have hstop : (measure_find_time next c l g).trace.get?
        (((drawKeys next c g).1.map Event.upsertOp).length + 1 +
          ((drawKeys next l (drawKeys next c g).2).1.map Event.findOp).length + 1) =
        some Event.timerStop := by
      rw [htr, List.get?_append_right (by omega)]
      have h2 : ((drawKeys next c g).1.map Event.upsertOp).length + 1 +
          ((drawKeys next l (drawKeys next c g).2).1.map Event.findOp).length + 1 -
          ((drawKeys next c g).1.map Event.upsertOp).length =
          ((drawKeys next l (drawKeys next c g).2).1.map Event.findOp).length + 1 + 1 := by
        omega
      rw [h2]
      exact base.2
    exact ⟨⟨_, _, by omega, hstart, hmem⟩, ⟨_, _, by omega, hmem, hstop⟩⟩

/-! ## The driver `main` (hash_perf.cpp lines 141-185)

`main` constructs one `sequential_key_generator skg` and one
`random_key_generator rkg` and passes `&skg` (resp. `&rkg`) to all eight
sequential (resp. random) measurement calls: four insert measurements
(lines 157-168), then four find measurements (lines 171-182), one per
table kind.  The generator state is therefore threaded through the
calls in program order; the counter of `skg` at the entry of each of the
eight sequential measurements is modelled below.  (Which table kind a
call instantiates does not affect the generator: the measurement draws
its keys regardless of the table's behaviour.) -/

/-- `skg` counter at entry of the 1st sequential measurement ( `skg` is
constructed with the default seed 0). -/
def mainSkg0 : Nat := sequential_key_generator.init 0

/-- `skg` counter at entry of the 2nd sequential measurement. -/
def mainSkg1 (c : Nat) : Nat :=
  (measure_insert_time sequential_key_generator.next c mainSkg0).gen

/-- `skg` counter at entry of the 3rd sequential measurement. -/
def mainSkg2 (c : Nat) : Nat :=
  (measure_insert_time sequential_key_generator.next c (mainSkg1 c)).gen

/-- `skg` counter at entry of the 4th sequential measurement. -/
def mainSkg3 (c : Nat) : Nat :=
  (measure_insert_time sequential_key_generator.next c (mainSkg2 c)).gen

/-- `skg` counter at entry of the 5th sequential measurement (the first
find measurement, after all four insert measurements). -/
def mainSkg4 (c : Nat) : Nat :=
  (measure_insert_time sequential_key_generator.next c (mainSkg3 c)).gen

/-- `skg` counter at entry of the 6th sequential measurement. -/
def mainSkg5 (c l : Nat) : Nat :=
  (measure_find_time sequential_key_generator.next c l (mainSkg4 c)).gen

/-- `skg` counter at entry of the 7th sequential measurement. -/
def mainSkg6 (c l : Nat) : Nat :=
  (measure_find_time sequential_key_generator.next c l (mainSkg5 c l)).gen

/-- `skg` counter at entry of the 8th sequential measurement. -/
def mainSkg7 (c l : Nat) : Nat :=
  (measure_find_time sequential_key_generator.next c l (mainSkg6 c l)).gen

/-- The `skg` counter value observed at the entry of each of the eight
sequential measurement calls of one `main` invocation with configuration
`(capacity, loop) = (c, l)`. -/
def mainSeqEntryStates (c l : Nat) : List Nat :=
  [mainSkg0, mainSkg1 c, mainSkg2 c, mainSkg3 c, mainSkg4 c,
    mainSkg5 c l, mainSkg6 c l, mainSkg7 c l]

/-- **C8, counterexample**: with configuration `capacity = 2, loop = 3`,
the eight sequential measurement calls start with counters
`[0, 2, 4, 6, 8, 13, 18, 23]`: already the second call observes the
generator state mutated by the first call, so the 16 measurement calls
are not independent — the two key generators are shared between calls. -/
theorem main_measurements_share_generator_state :
    mainSeqEntryStates 2 3 = [0, 2, 4, 6, 8, 13, 18, 23] ∧ mainSkg1 2 ≠ mainSkg0 := by
  refine ⟨?_, ?_⟩ <;> decide

theorem measure_insert_time_seq_gen (c s : Nat) :
    (measure_insert_time sequential_key_generator.next c (s % M)).gen = (s + c) % M := by
  show (drawKeys sequential_key_generator.next c (s % M)).2 = _
  rw [drawKeys_snd]
  exact seqAdvance c s

theorem measure_find_time_seq_gen (c l s : Nat) :
    (measure_find_time sequential_key_generator.next c l (s % M)).gen =
      (s + c + l) % M := by
  show (drawKeys sequential_key_generator.next l
    (drawKeys sequential_key_generator.next c (s % M)).2).2 = _
  rw [drawKeys_snd, drawKeys_snd, seqAdvance, seqAdvance]

/-- **C8 (amended)**: each measurement call constructs its own fresh table,
but the two key generators (and the shared memory out-parameter) are
threaded through the 16 calls: every call advances the generator it
uses by the number of keys it draws (`capacity` for an insert
measurement, `capacity + loop` for a find measurement), so the `i`-th
sequential measurement observes the state left behind by the previous
sequential measurements rather than a fresh seed. -/
theorem main_seq_entry_states_eq (c l : Nat) :
    mainSeqEntryStates c l =
      [0, c % M, 2 * c % M, 3 * c % M, 4 * c % M,
        (5 * c + l) % M, (6 * c + 2 * l) % M, (7 * c + 3 * l) % M] := by
  have e0 : mainSkg0 = 0 % M := rfl
  have e1 : mainSkg1 c = c % M := by
    unfold mainSkg1
    rw [e0, measure_insert_time_seq_gen]
    norm_num
  have e2 : mainSkg2 c = 2 * c % M := by
    unfold mainSkg2
    rw [e1, measure_insert_time_seq_gen]
    ring_nf
  have e3 : mainSkg3 c = 3 * c % M := by
    unfold mainSkg3
    rw [e2, measure_insert_time_seq_gen]
    ring_nf
  have e4 : mainSkg4 c = 4 * c % M := by
    unfold mainSkg4
    rw [e3, measure_insert_time_seq_gen]
    ring_nf
  have e5 : mainSkg5 c l = (5 * c + l) % M := by
    unfold mainSkg5
    rw [e4, measure_find_time_seq_gen]
    ring_nf
  have e6 : mainSkg6 c l = (6 * c + 2 * l) % M := by
    unfold mainSkg6
    rw [e5, measure_find_time_seq_gen]
    ring_nf
  have e7 : mainSkg7 c l = (7 * c + 3 * l) % M := by
    unfold mainSkg7
    rw [e6, measure_find_time_seq_gen]
    ring_nf
  unfold mainSeqEntryStates
  rw [e0, e1, e2, e3, e4, e5, e6, e7]
  norm_num

/-! ## The dense-table adapter `EasyUseDenseHashMap` (hash_perf.cpp lines 134-139)

`EasyUseDenseHashMap<Key, Val>` publicly inherits `dense_hash_map` and
its constructor performs `this->set_empty_key(0);` — the one-time
empty-sentinel configuration — delegating every other operation to the
base class unchanged. -/

/-- Modelled from the spec: `google::dense_hash_map` is an external
collaborator, "an opaque associative container" that "requires one-time
configuration before use (declaring a sentinel key value meaning slot
unused)".  The model records the configured sentinel, how many times
`set_empty_key` has been invoked, and the entries. -/
structure dense_hash_map where
  empty_key : Option Nat
  config_count : Nat
  entries : Table
deriving DecidableEq

/-- A default-constructed `dense_hash_map`: no sentinel configured yet. -/
def dense_hash_map.default : dense_hash_map := ⟨none, 0, []⟩

/-- `set_empty_key(k)`: the one-time sentinel configuration step. -/
def dense_hash_map.set_empty_key (m : dense_hash_map) (k : Nat) : dense_hash_map :=
  ⟨some k, m.config_count + 1, m.entries⟩

/-- `map[k] = v` on the underlying dense table. -/
def dense_hash_map.upsert (m : dense_hash_map) (k v : Nat) : dense_hash_map :=
  ⟨m.empty_key, m.config_count, Table.upsert m.entries k v⟩

/-- `map.find(k)` on the underlying dense table. -/
def dense_hash_map.found (m : dense_hash_map) (k : Nat) : Bool :=
  Table.found m.entries k

/-- `EasyUseDenseHashMap()` (lines 137-138): default-construct the base
`dense_hash_map`, then call `set_empty_key(0)`. -/
def EasyUseDenseHashMap.construct : dense_hash_map :=
  dense_hash_map.set_empty_key dense_hash_map.default 0

/-- The adapter inherits `operator[]` from the base class unchanged. -/
def EasyUseDenseHashMap.upsert : dense_hash_map → Nat → Nat → dense_hash_map :=
  dense_hash_map.upsert

/-- The adapter inherits `find` from the base class unchanged. -/
def EasyUseDenseHashMap.found : dense_hash_map → Nat → Bool :=
  dense_hash_map.found

/-- An operation the harness may invoke on a table under test. -/
inductive TableOp where
  | up : Nat → Nat → TableOp
  | lookup : Nat → TableOp
deriving DecidableEq

/-- Run a sequence of operations through the adapter's operations,
collecting the lookup results. -/
def runAdapter (m : dense_hash_map) : List TableOp → dense_hash_map × List Bool
  | [] => (m, [])
  | TableOp.up k v :: ops => runAdapter (EasyUseDenseHashMap.upsert m k v) ops
  | TableOp.lookup k :: ops =>
    let r := runAdapter m ops
    (r.1, EasyUseDenseHashMap.found m k :: r.2)

/-- Run a sequence of operations directly on the underlying dense table. -/
def runDense (m : dense_hash_map) : List TableOp → dense_hash_map × List Bool
  | [] => (m, [])
  | TableOp.up k v :: ops => runDense (dense_hash_map.upsert m k v) ops
  | TableOp.lookup k :: ops =>
    let r := runDense m ops
    (r.1, dense_hash_map.found m k :: r.2)

theorem runAdapter_eq_runDense (ops : List TableOp) (m : dense_hash_map) :
    runAdapter m ops = runDense m ops := by
  induction ops generalizing m with
  | nil => rfl
  | cons op ops ih =>
    cases op with
    | up k v => exact ih (dense_hash_map.upsert m k v)
    | lookup k => simp [runAdapter, runDense, ih m, EasyUseDenseHashMap.found]

theorem runDense_preserves_config (ops : List TableOp) (m : dense_hash_map) :
    (runDense m ops).1.empty_key = m.empty_key ∧
      (runDense m ops).1.config_count = m.config_count := by
  induction ops generalizing m with
  | nil => exact ⟨rfl, rfl⟩
  | cons op ops ih =>
    cases op with
    | up k v => exact ih (dense_hash_map.upsert m k v)
    | lookup k => exact ih m

/-- **C9**: the adapter performs the empty-sentinel configuration exactly
once at construction (`set_empty_key` has run once, with sentinel 0, and
no subsequent upsert or lookup runs it again), and for every sequence of
upsert and lookup operations it behaves identically — same final table,
same lookup results — to the underlying dense table used directly with
the same setup step already performed. -/
theorem adapter_equals_underlying_with_setup (ops : List TableOp) :
    runAdapter EasyUseDenseHashMap.construct ops =
        runDense (dense_hash_map.set_empty_key dense_hash_map.default 0) ops ∧
      EasyUseDenseHashMap.construct.config_count = 1 ∧
      (runAdapter EasyUseDenseHashMap.construct ops).1.config_count = 1 ∧
      (runAdapter EasyUseDenseHashMap.construct ops).1.empty_key = some 0 := by
  have h := runAdapter_eq_runDense ops EasyUseDenseHashMap.construct
  have hp := runDense_preserves_config ops EasyUseDenseHashMap.construct
  refine ⟨h, rfl, ?_, ?_⟩
  · rw [h]
    exact hp.2
  · rw [h]
    exact hp.1

end HashPerf
